import Mathlib

/-!
Verification of `src/common/sr_btree.c` (sysrepo balanced binary tree wrapper).

The file under verification is a thin wrapper over an external balancing
library.  The claims concern the red-black build (the `#else` branch taken
when `USE_AVL_LIB` is not defined), which delegates to libredblack:
`rbinit`, `rbsearch`, `rbfind`, `rbdelete`, `rbopenlist`, `rbreadlist`,
`rbcloselist`, `rbdestroy`.

Embedding choices:
* An opaque caller item is a pair of an integer key (what the
  caller-supplied comparator `compare_item_cb` inspects) and a tag that
  distinguishes different allocations with equal keys.  Equality of `Item`
  models pointer identity, which the wrapper tests with `tmp_item != item`.
* The red-black tree is represented by its in-order contents, a list of
  items strictly sorted by key; the library functions are modelled on that
  list by their documented semantics (`rbsearch` inserts when absent and
  returns the stored equal item otherwise, `rbfind` is a pure lookup,
  `rbdelete` unlinks the comparator-equal node and returns it,
  `rbopenlist`/`rbreadlist` walk the in-order sequence).  The walk kept in
  `tree->rb_list` is modelled as the list of items not yet read.
* Allocation failure is an explicit boolean oracle where the wrapper
  observes it (`calloc`/`rbinit` in `sr_btree_init`, node allocation inside
  `rbsearch` for `sr_btree_insert`).  The list opened internally by
  `sr_btree_cleanup` and by `sr_btree_get_at` is modelled as allocating
  successfully.
* Functions that invoke the registered destructor `free_item_cb` return
  the sequence of items it was invoked on, so destructor behaviour is
  observable.
-/

/-- Model of an opaque caller-supplied item: `key` is what the tree's
comparator looks at, `tag` separates distinct instances (distinct C
pointers) whose keys compare equal.  `Item` equality models pointer
identity. -/
structure Item where
  key : Int
  tag : Nat
deriving DecidableEq

/-- Error codes of the wrapper, from `sr_common.h`: `SR_ERR_OK`,
`SR_ERR_NOMEM`, `SR_ERR_DATA_EXISTS`. -/
inductive SrError where
  | ok
  | nomem
  | dataExists
deriving DecidableEq

/-- Model of the tree context `sr_btree_t` in the red-black build:
`items` is the in-order contents of `rb_tree`; `rb_list` is the open walk
(`NULL` pointer modelled as `none`, an open `RBLIST` as the list of items
not yet read); `free_item_cb` records whether a destructor was registered. -/
structure sr_btree where
  items : List Item
  rb_list : Option (List Item)
  free_item_cb : Bool
deriving DecidableEq

/-- The empty tree produced by a successful `sr_btree_init` with or
without a registered destructor. -/
def sr_btree_empty (fcb : Bool) : sr_btree :=
  { items := [], rb_list := none, free_item_cb := fcb }

/-- Model of libredblack `rbsearch` as invoked through the wrapper's
comparator: descend by key comparison; if a stored item compares equal,
return it and change nothing; otherwise insert the argument at its sorted
position and return the argument, or return `none` leaving the tree
unchanged when node allocation fails (`alloc = false`). -/
def rbsearch (alloc : Bool) (x : Item) : List Item → Option Item × List Item
  | [] => if alloc then (some x, [x]) else (none, [])
  | y :: ys =>
    if x.key < y.key then
      if alloc then (some x, x :: y :: ys) else (none, y :: ys)
    else if y.key < x.key then
      let p := rbsearch alloc x ys
      (p.1, y :: p.2)
    else (some y, y :: ys)

/-- Model of libredblack `rbfind`: pure lookup by comparator descent,
returning the stored comparator-equal item or `none`. -/
def rbfind (x : Item) : List Item → Option Item
  | [] => none
  | y :: ys =>
    if x.key < y.key then none
    else if y.key < x.key then rbfind x ys
    else some y

/-- Model of libredblack `rbdelete`: unlink the stored comparator-equal
node, returning the stored item that was removed (`none` and no change if
no node matches). -/
def rbdelete (x : Item) : List Item → Option Item × List Item
  | [] => (none, [])
  | y :: ys =>
    if x.key < y.key then (none, y :: ys)
    else if y.key < x.key then
      let p := rbdelete x ys
      (p.1, y :: p.2)
    else (some y, ys)

/-- Model of `sr_btree_init` (lines 60-90): the two allocation sites are
explicit (`callocOk` for the context, `rbinitOk` for `rbinit`); on either
failure no tree is produced and `SR_ERR_NOMEM` is returned; on success the
fresh context has a null `rb_list` and the given destructor registration. -/
def sr_btree_init (callocOk : Bool) (rbinitOk : Bool) (fcb : Bool) :
    SrError × Option sr_btree :=
  if callocOk then
    if rbinitOk then (SrError.ok, some (sr_btree_empty fcb))
    else (SrError.nomem, none)
  else (SrError.nomem, none)

/-- Model of `sr_btree_insert` (lines 122-146), red-black branch: call
`rbsearch`; `NULL` result means allocation failure (`SR_ERR_NOMEM`); a
result different from the argument pointer means a comparator-equal item
was already stored (`SR_ERR_DATA_EXISTS`); the argument itself back means
it is now stored (`SR_ERR_OK`).  `tree->rb_list` is not touched. -/
def sr_btree_insert (alloc : Bool) (t : sr_btree) (x : Item) :
    SrError × sr_btree :=
  let p := rbsearch alloc x t.items
  let t2 : sr_btree := { t with items := p.2 }
  match p.1 with
  | none => (SrError.nomem, t2)
  | some y => if y = x then (SrError.ok, t2) else (SrError.dataExists, t2)

/-- Model of `sr_btree_delete` (lines 148-161), red-black branch: call
`rbdelete` (its return value is discarded by the wrapper), then, if a
destructor is registered, invoke it on the argument `item` -
unconditionally, whether or not anything was removed.  The second
component is the sequence of items the destructor was invoked on.
`tree->rb_list` is not touched. -/
def sr_btree_delete (t : sr_btree) (x : Item) : sr_btree × List Item :=
  let p := rbdelete x t.items
  ({ t with items := p.2 }, if t.free_item_cb then [x] else [])

/-- Model of `sr_btree_search` (lines 163-180): a pure `rbfind` lookup;
the tree (contents and cursor) is returned unchanged, reflecting the
`const` tree parameter. -/
def sr_btree_search (t : sr_btree) (x : Item) : Option Item × sr_btree :=
  (rbfind x t.items, t)

/-- Model of the read step of `sr_btree_get_at` (lines 182-212), red-black
branch, after the `index == 0` reset: if a walk is open, read its next
item (`rbreadlist`), closing the walk when it yields nothing; if no walk
is open, return `NULL` without opening one. -/
def sr_btree_read (t : sr_btree) : Option Item × sr_btree :=
  match t.rb_list with
  | none => (none, t)
  | some [] => (none, { t with rb_list := none })
  | some (x :: rest) => (some x, { t with rb_list := some rest })

/-- Model of `sr_btree_get_at`, lines 194-208: the reset-on-zero step
before the read. -/
def sr_btree_get_at (t : sr_btree) (index : Nat) : Option Item × sr_btree :=
  if index = 0 then sr_btree_read { t with rb_list := some t.items }
  else sr_btree_read t

/-- Model of `sr_btree_cleanup` (lines 92-120): no-op on a null tree;
otherwise, when a destructor is registered, open a fresh walk and invoke
the destructor once on every item the walk yields (the full in-order
sequence), then release the open `rb_list`, the tree and the context.
The result is the sequence of items the destructor was invoked on. -/
def sr_btree_cleanup : Option sr_btree → List Item
  | none => []
  | some t => if t.free_item_cb then t.items else []

/-- Mutating and rank-reading operations used to describe an arbitrary
usage history of one tree. -/
inductive Op where
  | ins (x : Item)
  | del (x : Item)
  | getAt (i : Nat)
deriving DecidableEq

/-- Apply one operation to the tree state (results and destructor calls
discarded; insert allocations succeed). -/
def applyOp (t : sr_btree) : Op → sr_btree
  | Op.ins x => (sr_btree_insert true t x).2
  | Op.del x => (sr_btree_delete t x).1
  | Op.getAt i => (sr_btree_get_at t i).2

/-- Apply a sequence of operations from left to right. -/
def applyOps : sr_btree → List Op → sr_btree
  | t, [] => t
  | t, op :: ops => applyOps (applyOp t op) ops

/-- Run `sr_btree_get_at` on each index in turn, threading the tree state
and collecting the results. -/
def getAtSeq : sr_btree → List Nat → List (Option Item) × sr_btree
  | t, [] => ([], t)
  | t, i :: is =>
    let p := sr_btree_get_at t i
    let q := getAtSeq p.2 is
    (p.1 :: q.1, q.2)

/-- The representation invariant of the red-black tree model: the in-order
contents are strictly sorted by key (hence keys are pairwise distinct). -/
def SortedKeys (l : List Item) : Prop :=
  List.Pairwise (fun a b : Item => a.key < b.key) l

instance : DecidablePred SortedKeys := fun l =>
  List.instDecidablePairwise l

/-! Library-level lemmas about the modelled libredblack primitives. -/

theorem rbsearch_mem (alloc : Bool) (x z : Item) (l : List Item)
    (h : z ∈ (rbsearch alloc x l).2) : z = x ∨ z ∈ l := by
  induction l with
  | nil =>
    cases alloc
    · simp [rbsearch] at h
    · simp [rbsearch] at h
      simp [h]
  | cons y ys ih =>
    simp only [rbsearch] at h
    split_ifs at h with h1 h2 h3
    · simp at h
      rcases h with h | h | h <;> simp [h]
    · simp at h
      rcases h with h | h <;> simp [h]
    · simp at h
      rcases h with h | h
      · simp [h]
      · rcases ih h with h4 | h4 <;> simp [h4]
    · simp at h
      rcases h with h | h <;> simp [h]

theorem rbsearch_sorted (alloc : Bool) (x : Item) (l : List Item)
    (hs : SortedKeys l) : SortedKeys (rbsearch alloc x l).2 := by
  induction l with
  | nil =>
    cases alloc <;> simp [rbsearch, SortedKeys]
  | cons y ys ih =>
    rw [SortedKeys, List.pairwise_cons] at hs
    obtain ⟨hy, hys⟩ := hs
    simp only [rbsearch]
    split_ifs with h1 h2 h3
    · show SortedKeys (x :: y :: ys)
      rw [SortedKeys, List.pairwise_cons]
      refine ⟨?_, List.Pairwise.cons hy hys⟩
      intro z hz
      rcases List.mem_cons.mp hz with rfl | hz
      · exact h1
      · exact lt_trans h1 (hy z hz)
    · exact List.Pairwise.cons hy hys
    · show SortedKeys (y :: (rbsearch alloc x ys).2)
      rw [SortedKeys, List.pairwise_cons]
      refine ⟨?_, ih hys⟩
      intro z hz
      rcases rbsearch_mem alloc x z ys hz with rfl | hz
      · exact h3
      · exact hy z hz
    · exact List.Pairwise.cons hy hys

theorem rbsearch_noalloc (x : Item) (l : List Item)
    (h : ∀ y ∈ l, y.key ≠ x.key) : rbsearch false x l = (none, l) := by
  induction l with
  | nil => simp [rbsearch]
  | cons y ys ih =>
    have hy : y.key ≠ x.key := h y (List.mem_cons_self y ys)
    have hrec := ih (fun z hz => h z (List.mem_cons_of_mem y hz))
    simp only [rbsearch]
    rcases lt_trichotomy x.key y.key with h1 | h1 | h1
    · rw [if_pos h1]
      simp
    · exact absurd h1.symm hy
    · rw [if_neg (by omega), if_pos h1, hrec]

theorem rbsearch_found (alloc : Bool) (x y : Item) (l : List Item)
    (hs : SortedKeys l) (hy : y ∈ l) (hk : y.key = x.key) :
    rbsearch alloc x l = (some y, l) := by
  induction l with
  | nil => simp at hy
  | cons z zs ih =>
    rw [SortedKeys, List.pairwise_cons] at hs
    obtain ⟨hz, hzs⟩ := hs
    rcases List.mem_cons.mp hy with rfl | hmem
    · simp only [rbsearch]
      rw [if_neg (by omega), if_neg (by omega)]
    · have hlt : z.key < y.key := hz y hmem
      simp only [rbsearch]
      rw [if_neg (by omega), if_pos (by omega), ih hzs hmem]

theorem rbfind_after_rbsearch (alloc : Bool) (x : Item) (l : List Item)
    (h : (rbsearch alloc x l).1 = some x) :
    rbfind x (rbsearch alloc x l).2 = some x := by
  induction l with
  | nil =>
    cases alloc
    · simp [rbsearch] at h
    · show rbfind x [x] = some x
      simp [rbfind]
  | cons y ys ih =>
    simp only [rbsearch] at h ⊢
    rcases lt_trichotomy x.key y.key with h1 | h1 | h1
    · rw [if_pos h1] at h ⊢
      cases alloc
      · simp at h
      · show rbfind x (x :: y :: ys) = some x
        simp only [rbfind]
        rw [if_neg (lt_irrefl _), if_neg (lt_irrefl _)]
    · rw [if_neg (by omega), if_neg (by omega)] at h ⊢
      simp only [rbfind]
      rw [if_neg (by omega), if_neg (by omega)]
      simp at h
      simp [h]
    · rw [if_neg (by omega), if_pos h1] at h ⊢
      simp only at h
      simp only [rbfind]
      rw [if_neg (by omega), if_pos h1]
      exact ih h

theorem rbfind_none_iff (x : Item) (l : List Item) (hs : SortedKeys l) :
    rbfind x l = none ↔ ∀ y ∈ l, y.key ≠ x.key := by
  induction l with
  | nil => simp [rbfind]
  | cons y ys ih =>
    rw [SortedKeys, List.pairwise_cons] at hs
    obtain ⟨hy, hys⟩ := hs
    simp only [rbfind]
    split_ifs with h1 h2
    · constructor
      · intro _ z hz
        rcases List.mem_cons.mp hz with rfl | hz
        · omega
        · have := hy z hz
          omega
      · intro _
        rfl
    · rw [ih hys]
      constructor
      · intro h z hz
        rcases List.mem_cons.mp hz with rfl | hz
        · omega
        · exact h z hz
      · intro h z hz
        exact h z (List.mem_cons_of_mem y hz)
    · have hk : y.key = x.key := by omega
      constructor
      · intro h
        simp at h
      · intro h
        exact absurd hk (h y (List.mem_cons_self y ys))

theorem rbdelete_sublist (x : Item) (l : List Item) :
    (rbdelete x l).2.Sublist l := by
  induction l with
  | nil => simp [rbdelete]
  | cons y ys ih =>
    simp only [rbdelete]
    split_ifs with h1 h2
    · exact List.Sublist.refl _
    · exact List.Sublist.cons₂ y ih
    · exact List.sublist_cons_self y ys

theorem rbdelete_sorted (x : Item) (l : List Item) (hs : SortedKeys l) :
    SortedKeys (rbdelete x l).2 :=
  List.Pairwise.sublist (rbdelete_sublist x l) hs

theorem rbdelete_no_key (x : Item) (l : List Item) (hs : SortedKeys l) :
    ∀ y ∈ (rbdelete x l).2, y.key ≠ x.key := by
  induction l with
  | nil => simp [rbdelete]
  | cons y ys ih =>
    rw [SortedKeys, List.pairwise_cons] at hs
    obtain ⟨hy, hys⟩ := hs
    simp only [rbdelete]
    split_ifs with h1 h2
    · intro z hz
      rcases List.mem_cons.mp hz with rfl | hz
      · omega
      · have := hy z hz
        omega
    · intro z hz
      rcases List.mem_cons.mp hz with rfl | hz
      · omega
      · exact ih hys z hz
    · intro z hz
      have := hy z hz
      omega

theorem rbdelete_absent (x : Item) (l : List Item)
    (h : ∀ y ∈ l, y.key ≠ x.key) : rbdelete x l = (none, l) := by
  induction l with
  | nil => simp [rbdelete]
  | cons y ys ih =>
    have hy : y.key ≠ x.key := h y (List.mem_cons_self y ys)
    simp only [rbdelete]
    split_ifs with h1 h2
    · rfl
    · rw [ih (fun z hz => h z (List.mem_cons_of_mem y hz))]
    · exact absurd (by omega : y.key = x.key) hy

/-! Wrapper-level frame and invariant lemmas. -/

theorem sr_btree_insert_state (alloc : Bool) (t : sr_btree) (x : Item) :
    (sr_btree_insert alloc t x).2 = { t with items := (rbsearch alloc x t.items).2 } := by
  simp only [sr_btree_insert]
  rcases h : (rbsearch alloc x t.items).1 with - | y
  · simp [h]
  · by_cases hy : y = x <;> simp [h, hy]

theorem sr_btree_insert_rb_list (alloc : Bool) (t : sr_btree) (x : Item) :
    (sr_btree_insert alloc t x).2.rb_list = t.rb_list := by
  rw [sr_btree_insert_state]

theorem sr_btree_delete_rb_list (t : sr_btree) (x : Item) :
    (sr_btree_delete t x).1.rb_list = t.rb_list := rfl

theorem sr_btree_read_items (t : sr_btree) :
    (sr_btree_read t).2.items = t.items := by
  unfold sr_btree_read
  cases h : t.rb_list with
  | none => rfl
  | some l => cases l <;> rfl

theorem sr_btree_get_at_items (t : sr_btree) (i : Nat) :
    (sr_btree_get_at t i).2.items = t.items := by
  unfold sr_btree_get_at
  split_ifs <;> rw [sr_btree_read_items]

theorem applyOp_items_sorted (t : sr_btree) (op : Op)
    (h : SortedKeys t.items) : SortedKeys (applyOp t op).items := by
  cases op with
  | ins x =>
    show SortedKeys (sr_btree_insert true t x).2.items
    rw [sr_btree_insert_state]
    exact rbsearch_sorted true x t.items h
  | del x =>
    exact rbdelete_sorted x t.items h
  | getAt i =>
    show SortedKeys (sr_btree_get_at t i).2.items
    rw [sr_btree_get_at_items]
    exact h

theorem applyOps_sorted (ops : List Op) (t : sr_btree)
    (h : SortedKeys t.items) : SortedKeys (applyOps t ops).items := by
  induction ops generalizing t with
  | nil => exact h
  | cons op ops ih => exact ih (applyOp t op) (applyOp_items_sorted t op h)

/-! Walk lemmas for the rank cursor. -/

theorem get_at_nonzero (t : sr_btree) (i : Nat) (hi : i ≠ 0) :
    sr_btree_get_at t i = sr_btree_read t := by
  unfold sr_btree_get_at
  rw [if_neg hi]

theorem get_at_zero (t : sr_btree) :
    sr_btree_get_at t 0 = sr_btree_read { t with rb_list := some t.items } := by
  unfold sr_btree_get_at
  rw [if_pos rfl]

theorem getAtSeq_open (l : List Item) :
    ∀ (t : sr_btree) (is : List Nat), t.rb_list = some l →
    (∀ i ∈ is, i ≠ 0) → is.length = l.length →
    (getAtSeq t is).1 = l.map some := by
  induction l with
  | nil =>
    intro t is h hnz hlen
    have : is = [] := List.length_eq_zero.mp hlen
    subst this
    simp [getAtSeq]
  | cons x rest ih =>
    intro t is h hnz hlen
    cases is with
    | nil => simp at hlen
    | cons i is2 =>
      have hi : i ≠ 0 := hnz i (List.mem_cons_self i is2)
      have step : sr_btree_get_at t i = (some x, { t with rb_list := some rest }) := by
        rw [get_at_nonzero t i hi]
        unfold sr_btree_read
        rw [h]
      simp only [getAtSeq, step]
      rw [ih { t with rb_list := some rest } is2 rfl
        (fun j hj => hnz j (List.mem_cons_of_mem i hj)) (by simpa using hlen)]
      simp

theorem getAtSeq_range (t : sr_btree) :
    (getAtSeq t (List.range t.items.length)).1 = t.items.map some := by
  rcases h : t.items with - | ⟨x, rest⟩
  · simp [getAtSeq]
  · rw [List.length_cons, List.range_succ_eq_map]
    have step : sr_btree_get_at t 0 = (some x, { t with rb_list := some rest }) := by
      rw [get_at_zero]
      unfold sr_btree_read
      simp only [h]
    simp only [getAtSeq, step]
    rw [getAtSeq_open rest { t with rb_list := some rest } ((List.range rest.length).map Nat.succ)
      rfl (by simp) (by simp)]
    simp

/-! Concrete fixtures used by counterexamples and witnesses. -/

def itemA : Item := { key := 5, tag := 0 }

def itemB : Item := { key := 5, tag := 1 }

def treeA : sr_btree := { items := [itemA], rb_list := none, free_item_cb := true }

def treeW : sr_btree :=
  { items := [{ key := 1, tag := 0 }, { key := 2, tag := 0 }],
    rb_list := some [{ key := 2, tag := 0 }],
    free_item_cb := true }

/-- C1: after any sequence of insert, delete and get_at operations on an
initially empty tree, reading `get_at` at indices 0, 1, ..., n-1 (n the
current item count) yields exactly the current in-order contents, which
are strictly sorted by the comparator and therefore free of duplicate
keys - independent of the historical operation order. -/
theorem c1_in_order_identity (fcb : Bool) (ops : List Op) :
    (getAtSeq (applyOps (sr_btree_empty fcb) ops)
      (List.range (applyOps (sr_btree_empty fcb) ops).items.length)).1
      = (applyOps (sr_btree_empty fcb) ops).items.map some
    ∧ SortedKeys (applyOps (sr_btree_empty fcb) ops).items
    ∧ List.Pairwise (fun a b : Item => a.key ≠ b.key)
      (applyOps (sr_btree_empty fcb) ops).items := by
  have hs : SortedKeys (applyOps (sr_btree_empty fcb) ops).items :=
    applyOps_sorted ops (sr_btree_empty fcb) (by simp [sr_btree_empty, SortedKeys])
  have hp : List.Pairwise (fun a b : Item => a.key < b.key)
      (applyOps (sr_btree_empty fcb) ops).items := hs
  exact ⟨getAtSeq_range _, hs, List.Pairwise.imp (fun h => ne_of_lt h) hp⟩

/-- C2: evaluation of `sr_btree_delete` at the failing input - deleting
key 5 from an empty tree with a registered destructor leaves the contents
unchanged and is no error, but the destructor IS invoked, on the
argument, although no node matched. -/
theorem c2_delete_absent_invokes_destructor :
    sr_btree_delete (sr_btree_empty true) itemA
      = (sr_btree_empty true, [itemA]) := by decide

/-- C3 counterexample: a walk is opened by get_at(0) on a two-item tree
and has not reached its end; a subsequent insert leaves the cursor open
(`rb_list` is not `none`), whereas the claim requires the mutation to
close it. -/
theorem c3_counterexample :
    (applyOps (sr_btree_empty true)
      [Op.ins { key := 1, tag := 0 }, Op.ins { key := 2, tag := 0 },
       Op.getAt 0, Op.ins { key := 3, tag := 0 }]).rb_list ≠ none := by
  decide

/-- C3 amended: insert and delete never touch the rank cursor, open or
not; the cursor is closed only when a read reaches the end of the walk,
and a get_at call with index 0 unconditionally closes any open walk and
reopens from the first in-order item. -/
theorem c3_mutation_keeps_cursor (t : sr_btree) (x : Item) :
    (sr_btree_insert true t x).2.rb_list = t.rb_list
    ∧ (sr_btree_delete t x).1.rb_list = t.rb_list
    ∧ (∀ y rest, t.items = y :: rest →
        sr_btree_get_at t 0 = (some y, { t with rb_list := some rest }))
    ∧ (t.items = [] →
        sr_btree_get_at t 0 = (none, { t with rb_list := none })) := by
  refine ⟨sr_btree_insert_rb_list true t x, sr_btree_delete_rb_list t x, ?_, ?_⟩
  · intro y rest h
    rw [get_at_zero]
    simp [sr_btree_read, h]
  · intro h
    rw [get_at_zero]
    simp [sr_btree_read, h]

/-- C3 witness: the amended statement applied to a concrete tree. -/
theorem c3_mutation_keeps_cursor_witness :
    (sr_btree_insert true treeW { key := 3, tag := 0 }).2.rb_list = treeW.rb_list
    ∧ (sr_btree_delete treeW { key := 3, tag := 0 }).1.rb_list = treeW.rb_list
    ∧ (∀ y rest, treeW.items = y :: rest →
        sr_btree_get_at treeW 0 = (some y, { treeW with rb_list := some rest }))
    ∧ (treeW.items = [] →
        sr_btree_get_at treeW 0 = (none, { treeW with rb_list := none })) :=
  c3_mutation_keeps_cursor treeW { key := 3, tag := 0 }

/-- C4 counterexample: the exact stored instance (same pointer) has a key
comparing equal to a stored item, yet re-inserting it returns OK, not
DataExists. -/
theorem c4_counterexample :
    itemA ∈ (applyOps (sr_btree_empty true) [Op.ins itemA]).items
    ∧ (sr_btree_insert true (applyOps (sr_btree_empty true) [Op.ins itemA])
        itemA).1 = SrError.ok := by decide

/-- C4 amended: inserting an item that is comparator-equal to a stored
item but is not that stored instance itself returns DataExists and
performs no mutation at all (contents, cursor and destructor registration
are exactly as before; the stored item is untouched). -/
theorem c4_duplicate_rejection (t : sr_btree) (x y : Item)
    (hs : SortedKeys t.items) (hy : y ∈ t.items) (hk : y.key = x.key)
    (hne : y ≠ x) :
    sr_btree_insert true t x = (SrError.dataExists, t) := by
  have h := rbsearch_found true x y t.items hs hy hk
  simp [sr_btree_insert, h, hne]

/-- C4 witness: the amended statement applied to a concrete duplicate. -/
theorem c4_duplicate_rejection_witness :
    sr_btree_insert true treeA itemB = (SrError.dataExists, treeA) :=
  c4_duplicate_rejection treeA itemB itemA (by decide) (by decide)
    (by decide) (by decide)

/-- C5: if insert succeeds, an immediate search with the same key returns
the inserted item; after delete, a search with that key returns none. -/
theorem c5_round_trip (t : sr_btree) (x : Item) (hs : SortedKeys t.items) :
    ((sr_btree_insert true t x).1 = SrError.ok →
      (sr_btree_search (sr_btree_insert true t x).2 x).1 = some x)
    ∧ (sr_btree_search (sr_btree_delete t x).1 x).1 = none := by
  constructor
  · intro hok
    have hret : (rbsearch true x t.items).1 = some x := by
      rcases h : (rbsearch true x t.items).1 with - | y
      · simp [sr_btree_insert, h] at hok
      · by_cases hy : y = x
        · rw [hy]
        · simp [sr_btree_insert, h, hy] at hok
    rw [sr_btree_insert_state]
    show rbfind x (rbsearch true x t.items).2 = some x
    exact rbfind_after_rbsearch true x t.items hret
  · show rbfind x (rbdelete x t.items).2 = none
    rw [rbfind_none_iff x _ (rbdelete_sorted x t.items hs)]
    exact rbdelete_no_key x t.items hs

/-- C5 witness: the round trip applied to a concrete tree and item. -/
theorem c5_round_trip_witness :
    SortedKeys treeA.items
    ∧ (((sr_btree_insert true treeA { key := 7, tag := 0 }).1 = SrError.ok →
        (sr_btree_search (sr_btree_insert true treeA { key := 7, tag := 0 }).2
          { key := 7, tag := 0 }).1 = some { key := 7, tag := 0 })
      ∧ (sr_btree_search (sr_btree_delete treeA { key := 7, tag := 0 }).1
          { key := 7, tag := 0 }).1 = none) :=
  ⟨by decide, c5_round_trip treeA { key := 7, tag := 0 } (by decide)⟩

/-- C6: evaluation of `sr_btree_delete` at the failing input - itemA is
stored, delete is called with the distinct comparator-equal lookup key
itemB: the node is unlinked, but the destructor is invoked on the
argument itemB, never on the removed stored itemA. -/
theorem c6_destructor_on_argument :
    itemA ≠ itemB
    ∧ sr_btree_delete treeA itemB
        = ({ items := [], rb_list := none, free_item_cb := true }, [itemB]) := by
  decide

/-- C7: failed allocation in init (either the context or the library
structure) returns NOMEM and produces no tree; failed node allocation in
insert returns NOMEM and leaves the tree in exactly its prior state. -/
theorem c7_oom_rollback (a b : Bool) (t : sr_btree) (x : Item)
    (habs : ∀ y ∈ t.items, y.key ≠ x.key) :
    sr_btree_init false a b = (SrError.nomem, none)
    ∧ sr_btree_init true false b = (SrError.nomem, none)
    ∧ sr_btree_insert false t x = (SrError.nomem, t) := by
  refine ⟨rfl, rfl, ?_⟩
  have h := rbsearch_noalloc x t.items habs
  simp [sr_btree_insert, h]

/-- C7 witness: the rollback statement applied to a concrete tree. -/
theorem c7_oom_rollback_witness :
    (∀ y ∈ treeA.items, y.key ≠ ({ key := 7, tag := 0 } : Item).key)
    ∧ (sr_btree_init false true true = (SrError.nomem, none)
      ∧ sr_btree_init true false true = (SrError.nomem, none)
      ∧ sr_btree_insert false treeA { key := 7, tag := 0 }
          = (SrError.nomem, treeA)) :=
  ⟨by decide, c7_oom_rollback true true treeA { key := 7, tag := 0 } (by decide)⟩

/-- C8: cleanup of a null tree invokes nothing; with a registered
destructor it invokes the destructor exactly once per currently present
item (the in-order contents, duplicate-free under the invariant); with no
destructor registered it invokes it on nothing. -/
theorem c8_cleanup_exactly_once (t : sr_btree) (hs : SortedKeys t.items) :
    sr_btree_cleanup none = []
    ∧ (t.free_item_cb = true →
        sr_btree_cleanup (some t) = t.items ∧ t.items.Nodup)
    ∧ (t.free_item_cb = false → sr_btree_cleanup (some t) = []) := by
  refine ⟨rfl, ?_, ?_⟩
  · intro hf
    refine ⟨by simp [sr_btree_cleanup, hf], ?_⟩
    have hp : List.Pairwise (fun a b : Item => a.key < b.key) t.items := hs
    exact List.Pairwise.imp (fun h he => by rw [he] at h; exact lt_irrefl _ h) hp
  · intro hf
    simp [sr_btree_cleanup, hf]

/-- C8 witness: cleanup behaviour on a concrete one-item tree. -/
theorem c8_cleanup_exactly_once_witness :
    SortedKeys treeA.items
    ∧ (sr_btree_cleanup none = []
      ∧ (treeA.free_item_cb = true →
          sr_btree_cleanup (some treeA) = treeA.items ∧ treeA.items.Nodup)
      ∧ (treeA.free_item_cb = false → sr_btree_cleanup (some treeA) = [])) :=
  ⟨by decide, c8_cleanup_exactly_once treeA (by decide)⟩

/-- C9: search leaves the tree (contents and cursor) unchanged and
returns none exactly when no stored item compares equal to the key. -/
theorem c9_search_pure (t : sr_btree) (x : Item) (hs : SortedKeys t.items) :
    (sr_btree_search t x).2 = t
    ∧ ((sr_btree_search t x).1 = none ↔ ∀ y ∈ t.items, y.key ≠ x.key) :=
  ⟨rfl, rbfind_none_iff x t.items hs⟩

/-- C9 witness: search applied to a concrete tree and absent key. -/
theorem c9_search_pure_witness :
    SortedKeys treeA.items
    ∧ ((sr_btree_search treeA { key := 7, tag := 0 }).2 = treeA
      ∧ ((sr_btree_search treeA { key := 7, tag := 0 }).1 = none ↔
          ∀ y ∈ treeA.items, y.key ≠ ({ key := 7, tag := 0 } : Item).key)) :=
  ⟨by decide, c9_search_pure treeA { key := 7, tag := 0 } (by decide)⟩

/-- C10: in the red-black build the numeric value of a nonzero index is
ignored: any two nonzero indices behave identically; with no open walk
the call returns none and does not open one; with an open walk it returns
the next item of that walk. -/
theorem c10_nonzero_index (t : sr_btree) (i j : Nat) (hi : i ≠ 0)
    (hj : j ≠ 0) :
    sr_btree_get_at t i = sr_btree_get_at t j
    ∧ (t.rb_list = none → sr_btree_get_at t i = (none, t))
    ∧ (∀ x rest, t.rb_list = some (x :: rest) →
        sr_btree_get_at t i = (some x, { t with rb_list := some rest })) := by
  refine ⟨?_, ?_, ?_⟩
  · rw [get_at_nonzero t i hi, get_at_nonzero t j hj]
  · intro h
    rw [get_at_nonzero t i hi]
    simp [sr_btree_read, h]
  · intro x rest h
    rw [get_at_nonzero t i hi]
    simp [sr_btree_read, h]

/-- C10 witness: two concrete nonzero indices on a tree with an open
walk. -/
theorem c10_nonzero_index_witness :
    sr_btree_get_at treeW 5 = sr_btree_get_at treeW 7
    ∧ (treeW.rb_list = none → sr_btree_get_at treeW 5 = (none, treeW))
    ∧ (∀ x rest, treeW.rb_list = some (x :: rest) →
        sr_btree_get_at treeW 5 = (some x, { treeW with rb_list := some rest })) :=
  c10_nonzero_index treeW 5 7 (by decide) (by decide)
